import Mathlib

/-
Verification development for the `whiteboard` repository
(`src/whiteboard.py`).

The drawing/undo/redo core of `WhiteboardApp` is embedded shallowly:
the mutable fields of the Tk application object become a `State`
structure, the canvas becomes an explicit list of created items, and
each mouse/toolbar callback (`_start_draw`, `_draw_motion`,
`_end_draw`, `undo`, `redo`, `clear_canvas`, `_set_mode`) becomes a
pure state-transition function.  The two AI analysis paths
(`_analyze_with_hf`, `_analyze_with_gemini`) and the backend-selection
logic of `analyze_drawing` are embedded as pure functions over the
already-received HTTP status / response data; numbers from JSON are
modelled as rationals.
-/

namespace Whiteboard

/-! ## Canvas model

`tk.Canvas` as used by the application: `create_line` /
`create_rectangle` / `create_oval` allocate items carrying geometry, a
style, an optional list of string tags and a visibility state;
`itemconfigure(tag, state=...)` toggles visibility of every item
carrying the tag; `delete(id)` removes one item; `delete("all")`
removes all items. -/

structure CanvasItem where
  id : Nat
  kind : String
  x0 : Int
  y0 : Int
  x1 : Int
  y1 : Int
  color : String
  width : Int
  tags : List String
  visible : Bool
deriving DecidableEq, Repr

structure Canvas where
  nextId : Nat
  items : List CanvasItem
deriving DecidableEq, Repr

/-- `canvas.create_line` / `create_rectangle` / `create_oval`: appends a
fresh visible item and returns its id (tk item ids start at 1, so an id
is always truthy in Python). -/
def createItem (c : Canvas) (kind : String) (x0 y0 x1 y1 : Int)
    (color : String) (width : Int) (tags : List String) : Canvas × Nat :=
  ({ nextId := c.nextId + 1,
     items := c.items ++
       [{ id := c.nextId, kind := kind, x0 := x0, y0 := y0, x1 := x1, y1 := y1,
          color := color, width := width, tags := tags, visible := true }] },
   c.nextId)

/-- `canvas.delete(item_id)`. -/
def canvasDeleteItem (c : Canvas) (pid : Nat) : Canvas :=
  { c with items := c.items.filter (fun it => it.id ≠ pid) }

/-- `canvas.itemconfigure(tag, state='hidden' | 'normal')`. -/
def itemconfigureTag (c : Canvas) (tag : String) (vis : Bool) : Canvas :=
  { c with items := c.items.map (fun it => if tag ∈ it.tags then { it with visible := vis } else it) }

/-! ## Application state (the mutable fields set up in `__init__`) -/

structure State where
  currentColor : String
  backgroundColor : String
  brushSize : Int
  isEraser : Bool
  drawMode : String
  strokeIndex : Nat
  currentStrokeTag : Option String
  currentStrokeHasItems : Bool
  undoStack : List String
  redoStack : List String
  lastX : Option Int
  lastY : Option Int
  previewItem : Option Nat
  canvas : Canvas
deriving DecidableEq, Repr

/-- The state after `WhiteboardApp.__init__`. -/
def initState : State :=
  { currentColor := "#000000", backgroundColor := "#FFFFFF", brushSize := 4,
    isEraser := false, drawMode := "pen", strokeIndex := 0,
    currentStrokeTag := none, currentStrokeHasItems := false,
    undoStack := [], redoStack := [], lastX := none, lastY := none,
    previewItem := none, canvas := { nextId := 1, items := [] } }

/-- `f"stroke_{n}"`. -/
def strokeTag (n : Nat) : String := "stroke_" ++ toString n

/-- Python truthiness of an `Optional[str]`: `None` and `""` are falsy. -/
def pyTruthyStr (o : Option String) : Bool := o.getD "" != ""

/-- `color = self.background_color if self.is_eraser else self.current_color`. -/
def drawColor (s : State) : String :=
  if s.isEraser then s.backgroundColor else s.currentColor

/-- `WhiteboardApp._set_mode` (with `mode_var` holding `m`). -/
def setMode (s : State) (m : String) : State := { s with drawMode := m }

/-- `WhiteboardApp._start_draw` on a ButtonPress at `(x, y)`. -/
def startDraw (s : State) (x y : Int) : State :=
  let tag := strokeTag s.strokeIndex
  let s1 : State :=
    { s with currentStrokeHasItems := false, currentStrokeTag := some tag,
             strokeIndex := s.strokeIndex + 1, lastX := some x, lastY := some y }
  if s1.drawMode = "pen" then
    { s1 with
      canvas := (createItem s1.canvas "line" x y (x + 1) (y + 1)
        (drawColor s1) s1.brushSize [tag]).1,
      currentStrokeHasItems := true }
  else s1

/-- The shape-preview branch of `_draw_motion` (mode not `"pen"`): delete
the previous preview item if any, then create a new untagged preview for
the current mode.  If the mode matches no branch the stale
`_preview_item` field is kept, as in the source. -/
def shapePreview (s : State) (lx ly x y : Int) : State :=
  let c0 := match s.previewItem with
    | some pid => canvasDeleteItem s.canvas pid
    | none => s.canvas
  if s.drawMode = "line" then
    let p := createItem c0 "line" lx ly x y (drawColor s) s.brushSize []
    { s with canvas := p.1, previewItem := some p.2 }
  else if s.drawMode = "rectangle" then
    let p := createItem c0 "rectangle" lx ly x y (drawColor s) s.brushSize []
    { s with canvas := p.1, previewItem := some p.2 }
  else if s.drawMode = "circle" then
    let p := createItem c0 "oval" lx ly x y (drawColor s) s.brushSize []
    { s with canvas := p.1, previewItem := some p.2 }
  else { s with canvas := c0 }

/-- `WhiteboardApp._draw_motion` on a B1-Motion at `(x, y)`. -/
def drawMotion (s : State) (x y : Int) : State :=
  match s.lastX, s.lastY with
  | some lx, some ly =>
    if s.drawMode = "pen" then
      { s with
        canvas := (createItem s.canvas "line" lx ly x y (drawColor s)
          s.brushSize [s.currentStrokeTag.getD ""]).1,
        lastX := some x, lastY := some y }
    else shapePreview s lx ly x y
  | _, _ => s

/-- The first block of `_end_draw` (`if self.draw_mode != "pen" and
self._last_x is not None and self._last_y is not None:`): discard the
preview and create the committed shape primitive, marking the stroke
non-empty. -/
def endDrawShape (s : State) (x y : Int) : State :=
  if s.drawMode ≠ "pen" then
    match s.lastX, s.lastY with
    | some lx, some ly =>
      let c0 := match s.previewItem with
        | some pid => canvasDeleteItem s.canvas pid
        | none => s.canvas
      let c1 :=
        if s.drawMode = "line" then
          (createItem c0 "line" lx ly x y (drawColor s) s.brushSize
            [s.currentStrokeTag.getD ""]).1
        else if s.drawMode = "rectangle" then
          (createItem c0 "rectangle" lx ly x y (drawColor s) s.brushSize
            [s.currentStrokeTag.getD ""]).1
        else if s.drawMode = "circle" then
          (createItem c0 "oval" lx ly x y (drawColor s) s.brushSize
            [s.currentStrokeTag.getD ""]).1
        else c0
      { s with canvas := c1, previewItem := none, currentStrokeHasItems := true }
    | _, _ => s
  else s

/-- `WhiteboardApp._end_draw` on a ButtonRelease at `(x, y)`: possibly
commit a final shape primitive, then, if the stroke recorded any
primitive and its tag is truthy, append the tag to the undo stack and
clear the redo stack; finally reset the per-stroke fields. -/
def endDraw (s : State) (x y : Int) : State :=
  let s1 := endDrawShape s x y
  let s2 :=
    if s1.currentStrokeHasItems && pyTruthyStr s1.currentStrokeTag then
      { s1 with undoStack := s1.undoStack ++ [s1.currentStrokeTag.getD ""],
                redoStack := [] }
    else s1
  { s2 with currentStrokeHasItems := false, currentStrokeTag := none,
            lastX := none, lastY := none }

/-- `WhiteboardApp.undo`: pop the most recent active stroke tag, hide
its items, push it on the redo stack; no-op on empty history. -/
def undo (s : State) : State :=
  match s.undoStack.getLast? with
  | none => s
  | some stroke_tag =>
      { s with undoStack := s.undoStack.dropLast,
               canvas := itemconfigureTag s.canvas stroke_tag false,
               redoStack := s.redoStack ++ [stroke_tag] }

/-- `WhiteboardApp.redo`: pop the most recent undone stroke tag, reveal
its items, push it back on the undo stack; no-op on empty redo stack. -/
def redo (s : State) : State :=
  match s.redoStack.getLast? with
  | none => s
  | some stroke_tag =>
      { s with redoStack := s.redoStack.dropLast,
               canvas := itemconfigureTag s.canvas stroke_tag true,
               undoStack := s.undoStack ++ [stroke_tag] }

/-- `WhiteboardApp.clear_canvas`: `canvas.delete("all")` and empty both
stacks. -/
def clear_canvas (s : State) : State :=
  { s with canvas := { s.canvas with items := [] },
           undoStack := [], redoStack := [] }

/-! ## UI events reaching the drawing state -/

inductive Event where
  | setMode (m : String)
  | press (x y : Int)
  | motion (x y : Int)
  | release (x y : Int)
  | undoEv
  | redoEv
  | clearEv
deriving DecidableEq, Repr

def step (s : State) : Event → State
  | .setMode m => setMode s m
  | .press x y => startDraw s x y
  | .motion x y => drawMotion s x y
  | .release x y => endDraw s x y
  | .undoEv => undo s
  | .redoEv => redo s
  | .clearEv => clear_canvas s

def run (s : State) (es : List Event) : State := es.foldl step s

/-! ## Stroke tags are pairwise distinct

`f"stroke_{n}"` is injective in `n`: decimal rendering of a natural
number can be decoded by a left fold over its digit characters. -/

def digitVal (c : Char) : Nat := c.toNat - 48

def chompDigits (a : Nat) (l : List Char) : Nat :=
  l.foldl (fun x c => x * 10 + digitVal c) a

theorem digitVal_digitChar : ∀ d : Nat, d < 10 → digitVal (Nat.digitChar d) = d := by
  decide

theorem chompDigits_toDigitsCore (fuel : Nat) :
    ∀ n ds, n < fuel →
      chompDigits 0 (Nat.toDigitsCore 10 fuel n ds) = chompDigits n ds := by
  induction fuel with
  | zero => intro n ds h; omega
  | succ fuel ih =>
    intro n ds h
    rw [Nat.toDigitsCore]
    by_cases h0 : n / 10 = 0
    · simp only [if_pos h0]
      show chompDigits (0 * 10 + digitVal (Nat.digitChar (n % 10))) ds = chompDigits n ds
      rw [digitVal_digitChar _ (Nat.mod_lt _ (by omega))]
      congr 1
      omega
    · simp only [if_neg h0]
      have hlt : n / 10 < fuel := by omega
      rw [ih (n / 10) (Nat.digitChar (n % 10) :: ds) hlt]
      show chompDigits (n / 10 * 10 + digitVal (Nat.digitChar (n % 10))) ds = chompDigits n ds
      rw [digitVal_digitChar _ (Nat.mod_lt _ (by omega))]
      congr 1
      omega

theorem chompDigits_repr (n : Nat) : chompDigits 0 (Nat.repr n).data = n := by
  have h : (Nat.repr n).data = Nat.toDigitsCore 10 (n + 1) n [] := rfl
  rw [h, chompDigits_toDigitsCore (n + 1) n [] (Nat.lt_succ_self n)]
  rfl

theorem strokeTag_injective {m n : Nat} (h : strokeTag m = strokeTag n) : m = n := by
  have hd : ("stroke_".data ++ (Nat.repr m).data) = ("stroke_".data ++ (Nat.repr n).data) := by
    have := congrArg String.data h
    simpa [strokeTag, String.data_append, toString] using this
  have hrepr : (Nat.repr m).data = (Nat.repr n).data := List.append_cancel_left hd
  have := congrArg (chompDigits 0) hrepr
  rwa [chompDigits_repr, chompDigits_repr] at this

theorem strokeTag_ne_empty (n : Nat) : strokeTag n ≠ "" := by
  intro h
  have hd := congrArg String.data h
  simp [strokeTag, String.data_append, toString] at hd

theorem pyTruthyStr_strokeTag (n : Nat) : pyTruthyStr (some (strokeTag n)) = true := by
  simp [pyTruthyStr, strokeTag_ne_empty n]

/-! ## How each handler acts on the history-relevant fields -/

theorem setMode_fields (s : State) (m : String) :
    (setMode s m).undoStack = s.undoStack ∧
    (setMode s m).redoStack = s.redoStack ∧
    (setMode s m).strokeIndex = s.strokeIndex ∧
    (setMode s m).currentStrokeTag = s.currentStrokeTag := by
  refine ⟨rfl, rfl, rfl, rfl⟩

theorem startDraw_fields (s : State) (x y : Int) :
    (startDraw s x y).undoStack = s.undoStack ∧
    (startDraw s x y).redoStack = s.redoStack ∧
    (startDraw s x y).strokeIndex = s.strokeIndex + 1 ∧
    (startDraw s x y).currentStrokeTag = some (strokeTag s.strokeIndex) := by
  unfold startDraw
  by_cases h : s.drawMode = "pen" <;> simp [h]

theorem drawMotion_fields (s : State) (x y : Int) :
    (drawMotion s x y).undoStack = s.undoStack ∧
    (drawMotion s x y).redoStack = s.redoStack ∧
    (drawMotion s x y).strokeIndex = s.strokeIndex ∧
    (drawMotion s x y).currentStrokeTag = s.currentStrokeTag ∧
    (drawMotion s x y).currentStrokeHasItems = s.currentStrokeHasItems ∧
    (drawMotion s x y).drawMode = s.drawMode := by
  unfold drawMotion shapePreview
  rcases hx : s.lastX with _ | lx <;> rcases hy : s.lastY with _ | ly
  · simp
  · simp
  · simp
  · by_cases h : s.drawMode = "pen"
    · simp [h]
    · rcases hp : s.previewItem with _ | pid <;>
        by_cases h1 : s.drawMode = "line" <;>
        by_cases h2 : s.drawMode = "rectangle" <;>
        by_cases h3 : s.drawMode = "circle" <;>
        simp [h, h1, h2, h3]

theorem endDrawShape_fields (s : State) (x y : Int) :
    (endDrawShape s x y).undoStack = s.undoStack ∧
    (endDrawShape s x y).redoStack = s.redoStack ∧
    (endDrawShape s x y).strokeIndex = s.strokeIndex ∧
    (endDrawShape s x y).currentStrokeTag = s.currentStrokeTag := by
  unfold endDrawShape
  by_cases h : s.drawMode = "pen"
  · rw [if_neg (by simp [h])]
    exact ⟨rfl, rfl, rfl, rfl⟩
  · rw [if_pos (by simpa using h)]
    rcases hx : s.lastX with _ | lx <;> rcases hy : s.lastY with _ | ly
    · simp
    · simp
    · simp
    · rcases hp : s.previewItem with _ | pid <;>
        by_cases h1 : s.drawMode = "line" <;>
        by_cases h2 : s.drawMode = "rectangle" <;>
        by_cases h3 : s.drawMode = "circle" <;>
        simp [h1, h2, h3]

/-- Whether the pointer-release from state `s` will commit the current
stroke: the first block of `_end_draw` forces
`_current_stroke_has_items` whenever the mode is a shape mode and an
anchor point is recorded, and the commit additionally requires a truthy
stroke tag. -/
def commitsAt (s : State) : Bool :=
  (s.currentStrokeHasItems || (!(s.drawMode == "pen") && s.lastX.isSome && s.lastY.isSome))
    && pyTruthyStr s.currentStrokeTag

theorem endDrawShape_hasItems (s : State) (x y : Int) :
    (endDrawShape s x y).currentStrokeHasItems =
      (s.currentStrokeHasItems ||
        (!(s.drawMode == "pen") && s.lastX.isSome && s.lastY.isSome)) := by
  unfold endDrawShape
  by_cases h : s.drawMode = "pen"
  · rw [if_neg (by simp [h])]
    simp [h]
  · rw [if_pos (by simpa using h)]
    rcases hx : s.lastX with _ | lx <;> rcases hy : s.lastY with _ | ly
    · simp
    · simp
    · simp
    · rcases hp : s.previewItem with _ | pid <;>
        by_cases h1 : s.drawMode = "line" <;>
        by_cases h2 : s.drawMode = "rectangle" <;>
        by_cases h3 : s.drawMode = "circle" <;>
        simp [h, h1, h2, h3]

theorem endDraw_stacks (s : State) (x y : Int) :
    (commitsAt s = true →
       (endDraw s x y).undoStack = s.undoStack ++ [s.currentStrokeTag.getD ""] ∧
       (endDraw s x y).redoStack = []) ∧
    (commitsAt s = false →
       (endDraw s x y).undoStack = s.undoStack ∧
       (endDraw s x y).redoStack = s.redoStack) := by
  obtain ⟨hu, hr, _, ht⟩ := endDrawShape_fields s x y
  have hh := endDrawShape_hasItems s x y
  unfold endDraw
  simp only [hu, hr, ht, hh]
  have hcond : ((s.currentStrokeHasItems ||
        (!(s.drawMode == "pen") && s.lastX.isSome && s.lastY.isSome))
      && pyTruthyStr s.currentStrokeTag) = commitsAt s := rfl
  rw [hcond]
  cases hc : commitsAt s <;> simp [hu, hr]

theorem endDraw_fields (s : State) (x y : Int) :
    (endDraw s x y).strokeIndex = s.strokeIndex ∧
    (endDraw s x y).currentStrokeTag = none := by
  obtain ⟨hu, hr, hi, ht⟩ := endDrawShape_fields s x y
  unfold endDraw
  refine ⟨?_, rfl⟩
  by_cases hc : ((endDrawShape s x y).currentStrokeHasItems &&
      pyTruthyStr (endDrawShape s x y).currentStrokeTag) = true
  · simp [hc, hi]
  · simp [hc, hi]

theorem pyTruthyStr_iff (o : Option String) :
    pyTruthyStr o = true ↔ ∃ t, o = some t ∧ t ≠ "" := by
  cases o <;> simp [pyTruthyStr]

/-! ## Ghost ledger: which stroke tags were ever committed, and which
were discarded (by `redo_stack.clear()` at a commit, or by
`clear_canvas`). -/

structure GhostLedger where
  committed : List String
  removed : List String
deriving DecidableEq, Repr

/-- `step` instrumented with the ghost bookkeeping: a committing
pointer-release records the committed tag and marks the discarded redo
stack as removed; `clear_canvas` marks both stacks as removed. -/
def gstep (p : State × GhostLedger) (e : Event) : State × GhostLedger :=
  (step p.1 e,
   match e with
   | .release _ _ =>
     if commitsAt p.1 then
       { committed := p.2.committed ++ [p.1.currentStrokeTag.getD ""],
         removed := p.2.removed ++ p.1.redoStack }
     else p.2
   | .clearEv => { p.2 with removed := p.2.removed ++ p.1.undoStack ++ p.1.redoStack }
   | _ => p.2)

def runGhost (es : List Event) : State × GhostLedger :=
  es.foldl gstep (initState, { committed := [], removed := [] })

/-- The inductive invariant tying the two stacks to the ghost ledger. -/
def Inv (p : State × GhostLedger) : Prop :=
  (p.1.undoStack ++ p.1.redoStack).Nodup ∧
  (∀ t : String, t ∈ p.1.undoStack ++ p.1.redoStack ↔
      t ∈ p.2.committed ∧ t ∉ p.2.removed) ∧
  (∀ t : String, t ∈ p.2.removed → t ∈ p.2.committed) ∧
  (∀ t : String, t ∈ p.2.committed → ∃ k, k < p.1.strokeIndex ∧ t = strokeTag k) ∧
  (∀ t : String, p.1.currentStrokeTag = some t →
      (∃ k, k < p.1.strokeIndex ∧ t = strokeTag k) ∧ t ∉ p.2.committed)

theorem pop_push_perm {α : Type} (l r : List α) (h : l ≠ []) :
    (l.dropLast ++ (r ++ [l.getLast h])).Perm (l ++ r) := by
  conv_rhs => rw [← List.dropLast_append_getLast h]
  rw [List.append_assoc]
  exact List.Perm.append_left _ List.perm_append_comm

theorem push_pop_perm {α : Type} (l r : List α) (h : r ≠ []) :
    ((l ++ [r.getLast h]) ++ r.dropLast).Perm (l ++ r) := by
  conv_rhs => rw [← List.dropLast_append_getLast h]
  rw [List.append_assoc]
  exact List.Perm.append_left _ List.perm_append_comm

theorem inv_gstep (p : State × GhostLedger) (e : Event) (hp : Inv p) : Inv (gstep p e) := by
  obtain ⟨hnd, hmem, hRC, hC, hpend⟩ := hp
  have husC : ∀ u, u ∈ p.1.undoStack → u ∈ p.2.committed := fun u hu =>
    ((hmem u).1 (List.mem_append_left _ hu)).1
  have hrsC : ∀ u, u ∈ p.1.redoStack → u ∈ p.2.committed := fun u hu =>
    ((hmem u).1 (List.mem_append_right _ hu)).1
  cases e with
  | setMode m => exact ⟨hnd, hmem, hRC, hC, hpend⟩
  | motion x y =>
    obtain ⟨h1, h2, h3, h4, _, _⟩ := drawMotion_fields p.1 x y
    unfold Inv gstep
    simp only [step, h1, h2, h3, h4]
    exact ⟨hnd, hmem, hRC, hC, hpend⟩
  | press x y =>
    obtain ⟨h1, h2, h3, h4⟩ := startDraw_fields p.1 x y
    unfold Inv gstep
    simp only [step, h1, h2, h3, h4]
    refine ⟨hnd, hmem, hRC, ?_, ?_⟩
    · intro t ht
      obtain ⟨k, hk, rfl⟩ := hC t ht
      exact ⟨k, by omega, rfl⟩
    · intro t ht
      have ht' : strokeTag p.1.strokeIndex = t := by injection ht
      subst ht'
      refine ⟨⟨p.1.strokeIndex, by omega, rfl⟩, ?_⟩
      intro hmem'
      obtain ⟨k, hk, hek⟩ := hC _ hmem'
      exact absurd (strokeTag_injective hek) (by omega)
  | undoEv =>
    unfold Inv gstep
    simp only [step]
    rcases hL : p.1.undoStack.getLast? with _ | t
    · simp only [undo, hL]
      exact ⟨hnd, hmem, hRC, hC, hpend⟩
    · have hne : p.1.undoStack ≠ [] := by
        intro h0; rw [h0] at hL; simp at hL
      have ht : t = p.1.undoStack.getLast hne := by
        have := List.getLast?_eq_getLast _ hne
        rw [hL] at this; injection this
      subst ht
      have hperm := pop_push_perm p.1.undoStack p.1.redoStack hne
      simp only [undo, hL]
      refine ⟨(hperm.nodup_iff).mpr hnd, ?_, hRC, hC, hpend⟩
      intro u
      exact (hperm.mem_iff).trans (hmem u)
  | redoEv =>
    unfold Inv gstep
    simp only [step]
    rcases hL : p.1.redoStack.getLast? with _ | t
    · simp only [redo, hL]
      exact ⟨hnd, hmem, hRC, hC, hpend⟩
    · have hne : p.1.redoStack ≠ [] := by
        intro h0; rw [h0] at hL; simp at hL
      have ht : t = p.1.redoStack.getLast hne := by
        have := List.getLast?_eq_getLast _ hne
        rw [hL] at this; injection this
      subst ht
      have hperm := push_pop_perm p.1.undoStack p.1.redoStack hne
      simp only [redo, hL]
      refine ⟨(hperm.nodup_iff).mpr hnd, ?_, hRC, hC, hpend⟩
      intro u
      exact (hperm.mem_iff).trans (hmem u)
  | clearEv =>
    unfold Inv gstep
    simp only [step, clear_canvas]
    refine ⟨by simp, ?_, ?_, hC, hpend⟩
    · intro u
      simp only [List.append_nil, List.mem_append]
      constructor
      · intro hu; exact absurd hu (List.not_mem_nil u)
      · rintro ⟨huC, hnR⟩
        exfalso
        by_cases hR : u ∈ p.2.removed
        · exact hnR (Or.inl (Or.inl hR))
        · rcases List.mem_append.mp ((hmem u).2 ⟨huC, hR⟩) with h | h
          · exact hnR (Or.inl (Or.inr h))
          · exact hnR (Or.inr h)
    · intro u hu
      rcases List.mem_append.mp hu with h | h
      · rcases List.mem_append.mp h with h' | h'
        · exact hRC u h'
        · exact husC u h'
      · exact hrsC u h
  | release x y =>
    have hst := endDraw_stacks p.1 x y
    obtain ⟨hidx, htag⟩ := endDraw_fields p.1 x y
    unfold Inv gstep
    simp only [step]
    cases hc : commitsAt p.1 with
    | false =>
      obtain ⟨hu, hr⟩ := hst.2 hc
      simp only [hc, Bool.false_eq_true, if_false, hu, hr, hidx, htag]
      refine ⟨hnd, hmem, hRC, hC, ?_⟩
      intro t ht
      exact absurd ht (by simp)
    | true =>
      obtain ⟨hu, hr⟩ := hst.1 hc
      have htruthy : pyTruthyStr p.1.currentStrokeTag = true := by
        have h2 := hc
        unfold commitsAt at h2
        simp only [Bool.and_eq_true] at h2
        exact h2.2
      obtain ⟨t, hsome, hte⟩ := (pyTruthyStr_iff _).mp htruthy
      have hgetD : p.1.currentStrokeTag.getD "" = t := by rw [hsome]; rfl
      obtain ⟨⟨k, hk, hkt⟩, htC⟩ := hpend t hsome
      have hdisj : p.1.undoStack.Disjoint p.1.redoStack :=
        (List.nodup_append.mp hnd).2.2
      simp only [hc, if_true, hu, hr, hidx, htag, hgetD]
      refine ⟨?_, ?_, ?_, ?_, ?_⟩
      · -- Nodup ((us ++ [t]) ++ [])
        have htus : t ∉ p.1.undoStack := fun h => htC (husC t h)
        simp only [List.append_nil]
        rw [List.nodup_append]
        exact ⟨(List.nodup_append.mp hnd).1, List.nodup_singleton t,
          by intro a ha hb; rw [List.mem_singleton] at hb; subst hb; exact htus ha⟩
      · intro u
        simp only [List.append_nil, List.mem_append, List.mem_singleton,
          List.not_mem_nil, or_false]
        constructor
        · rintro (hus | rfl)
          · obtain ⟨huC, hnR⟩ := (hmem u).1 (List.mem_append_left _ hus)
            refine ⟨Or.inl huC, ?_⟩
            rintro (hR | hrs)
            · exact hnR hR
            · exact hdisj hus hrs
          · refine ⟨Or.inr rfl, ?_⟩
            rintro (hR | hrs)
            · exact htC (hRC u hR)
            · exact htC (hrsC u hrs)
        · rintro ⟨huC | rfl, hnR⟩
          · have huR : u ∉ p.2.removed := fun h => hnR (Or.inl h)
            rcases List.mem_append.mp ((hmem u).2 ⟨huC, huR⟩) with h | h
            · exact Or.inl h
            · exact absurd h (fun h' => hnR (Or.inr h'))
          · exact Or.inr rfl
      · intro u hu
        rcases List.mem_append.mp hu with h | h
        · exact List.mem_append_left _ (hRC u h)
        · exact List.mem_append_left _ (hrsC u h)
      · intro u hu
        rcases List.mem_append.mp hu with h | h
        · exact hC u h
        · rw [List.mem_singleton] at h
          subst h
          exact ⟨k, hk, hkt⟩
      · intro u hu
        exact absurd hu (by simp)

theorem inv_init : Inv (initState, { committed := [], removed := [] }) := by
  unfold Inv
  refine ⟨by simp [initState], by simp [initState], by simp, by simp, ?_⟩
  intro t ht
  simp [initState] at ht

theorem inv_foldl (es : List Event) : ∀ p, Inv p → Inv (es.foldl gstep p) := by
  induction es with
  | nil => intro p hp; exact hp
  | cons e es ih => intro p hp; exact ih _ (inv_gstep p e hp)

theorem foldl_gstep_fst (es : List Event) : ∀ p : State × GhostLedger,
    (es.foldl gstep p).1 = run p.1 es := by
  induction es with
  | nil => intro p; rfl
  | cons e es ih => intro p; exact (ih (gstep p e)).trans rfl

/-! ## Claims -/

/-- C1: for every state with a non-empty active sequence, `undo`
followed immediately by `redo` restores both the undo stack and the
redo stack to their pre-undo values; symmetrically, for every state
with a non-empty undone sequence, `redo` followed by `undo` restores
both stacks to their pre-redo values. -/
theorem c1_undo_redo_roundtrip (s : State) :
    (s.undoStack ≠ [] →
       (redo (undo s)).undoStack = s.undoStack ∧
       (redo (undo s)).redoStack = s.redoStack) ∧
    (s.redoStack ≠ [] →
       (undo (redo s)).undoStack = s.undoStack ∧
       (undo (redo s)).redoStack = s.redoStack) := by
  constructor
  · intro h
    have hL : s.undoStack.getLast? = some (s.undoStack.getLast h) :=
      List.getLast?_eq_getLast _ h
    simp only [undo, hL]
    have hL2 : (s.redoStack ++ [s.undoStack.getLast h]).getLast? =
        some (s.undoStack.getLast h) := List.getLast?_concat _
    simp only [redo, hL2]
    exact ⟨List.dropLast_append_getLast h, List.dropLast_concat⟩
  · intro h
    have hL : s.redoStack.getLast? = some (s.redoStack.getLast h) :=
      List.getLast?_eq_getLast _ h
    simp only [redo, hL]
    have hL2 : (s.undoStack ++ [s.redoStack.getLast h]).getLast? =
        some (s.redoStack.getLast h) := List.getLast?_concat _
    simp only [undo, hL2]
    exact ⟨List.dropLast_concat, List.dropLast_append_getLast h⟩

theorem c1_witness :
    ((redo (undo (run initState [.press 0 0, .release 0 0]))).undoStack =
        (run initState [.press 0 0, .release 0 0]).undoStack ∧
     (redo (undo (run initState [.press 0 0, .release 0 0]))).redoStack =
        (run initState [.press 0 0, .release 0 0]).redoStack) ∧
    ((undo (redo (undo (run initState [.press 0 0, .release 0 0])))).undoStack =
        (undo (run initState [.press 0 0, .release 0 0])).undoStack ∧
     (undo (redo (undo (run initState [.press 0 0, .release 0 0])))).redoStack =
        (undo (run initState [.press 0 0, .release 0 0])).redoStack) :=
  ⟨(c1_undo_redo_roundtrip (run initState [.press 0 0, .release 0 0])).1 (by decide),
   (c1_undo_redo_roundtrip (undo (run initState [.press 0 0, .release 0 0]))).2 (by decide)⟩

/-- C2: a pointer-release that commits the current stroke (the stroke
recorded a primitive and carries a truthy tag) appends the tag to the
undo stack and leaves the redo stack empty, whatever it held before. -/
theorem c2_commit_clears_redo (s : State) (x y : Int) (h : commitsAt s = true) :
    (endDraw s x y).undoStack = s.undoStack ++ [s.currentStrokeTag.getD ""] ∧
    (endDraw s x y).redoStack = [] :=
  (endDraw_stacks s x y).1 h

theorem c2_witness :
    (endDraw (startDraw (undo (run initState [.press 0 0, .release 0 0])) 5 5) 6 6).redoStack
      = [] ∧
    (undo (run initState [.press 0 0, .release 0 0])).redoStack ≠ [] :=
  ⟨(c2_commit_clears_redo
      (startDraw (undo (run initState [.press 0 0, .release 0 0])) 5 5) 6 6 (by decide)).2,
   by decide⟩

/-- C3: in every state reachable from the initial state by any sequence
of UI events, the active (undo) and undone (redo) sequences are
disjoint and duplicate-free, and together they hold exactly the stroke
tags ever committed minus those discarded by `clear_canvas` or by the
redo-stack clearing of a later commit (the ghost ledger records both). -/
theorem c3_history_partition_invariant (es : List Event) :
    (runGhost es).1 = run initState es ∧
    ((runGhost es).1.undoStack).Disjoint ((runGhost es).1.redoStack) ∧
    ((runGhost es).1.undoStack ++ (runGhost es).1.redoStack).Nodup ∧
    (∀ t : String, (t ∈ (runGhost es).1.undoStack ∨ t ∈ (runGhost es).1.redoStack) ↔
       (t ∈ (runGhost es).2.committed ∧ t ∉ (runGhost es).2.removed)) := by
  have hinv : Inv (runGhost es) :=
    inv_foldl es _ inv_init
  obtain ⟨hnd, hmem, _, _, _⟩ := hinv
  refine ⟨foldl_gstep_fst es _, (List.nodup_append.mp hnd).2.2, hnd, ?_⟩
  intro t
  rw [← List.mem_append]
  exact hmem t

theorem c3_witness :
    (runGhost [.press 0 0, .release 0 0, .press 1 1, .release 1 1, .undoEv]).1 =
      run initState [.press 0 0, .release 0 0, .press 1 1, .release 1 1, .undoEv] ∧
    (("stroke_1" ∈
        (runGhost [.press 0 0, .release 0 0, .press 1 1, .release 1 1, .undoEv]).1.undoStack ∨
      "stroke_1" ∈
        (runGhost [.press 0 0, .release 0 0, .press 1 1, .release 1 1, .undoEv]).1.redoStack) ↔
     ("stroke_1" ∈
        (runGhost [.press 0 0, .release 0 0, .press 1 1, .release 1 1, .undoEv]).2.committed ∧
      "stroke_1" ∉
        (runGhost [.press 0 0, .release 0 0, .press 1 1, .release 1 1, .undoEv]).2.removed)) :=
  ⟨(c3_history_partition_invariant
      [.press 0 0, .release 0 0, .press 1 1, .release 1 1, .undoEv]).1,
   (c3_history_partition_invariant
      [.press 0 0, .release 0 0, .press 1 1, .release 1 1, .undoEv]).2.2.2 "stroke_1"⟩

/-- Canvas item kind created for each shape mode (`circle` strokes use
`create_oval`). -/
def shapeKind (m : String) : String := if m = "circle" then "oval" else m

/-- C4 counterexample: in rectangle mode, pressing and releasing the
pointer at the same point with no intervening motion does NOT discard
the stroke — `_end_draw` creates a degenerate rectangle primitive and
commits the stroke to the undo stack. -/
theorem c4_counterexample :
    (run initState [.setMode "rectangle", .press 3 4, .release 3 4]).undoStack
      = ["stroke_0"] ∧
    (run initState [.setMode "rectangle", .press 3 4, .release 3 4]).canvas.items =
      [{ id := 1, kind := "rectangle", x0 := 3, y0 := 4, x1 := 3, y1 := 4,
         color := "#000000", width := 4, tags := ["stroke_0"], visible := true }] := by
  decide

/-- C4 amended: in a shape mode (line, rectangle, circle), a pointer
press and release without intervening motion still records one
degenerate primitive (both corners at the click point) tagged with the
new stroke, and the stroke is committed: the tag is appended to the
active sequence and the undone sequence is cleared.  (A stroke with
zero recorded primitives is discarded with both sequences unchanged
only when the release finds no recorded anchor point, i.e. a release
not preceded by a press.) -/
theorem c4_shape_click_commits (s : State) (x y : Int)
    (h : s.drawMode = "line" ∨ s.drawMode = "rectangle" ∨ s.drawMode = "circle") :
    (endDraw (startDraw s x y) x y).undoStack = s.undoStack ++ [strokeTag s.strokeIndex] ∧
    (endDraw (startDraw s x y) x y).redoStack = [] ∧
    ∃ it ∈ (endDraw (startDraw s x y) x y).canvas.items,
      it.kind = shapeKind s.drawMode ∧ it.x0 = x ∧ it.y0 = y ∧ it.x1 = x ∧ it.y1 = y ∧
      it.tags = [strokeTag s.strokeIndex] := by
  rcases h with h | h | h <;>
    rcases hp : s.previewItem with _ | pid <;>
    simp [startDraw, endDraw, endDrawShape, h, hp, strokeTag_ne_empty s.strokeIndex,
      createItem, canvasDeleteItem, shapeKind, pyTruthyStr] <;>
    exact ⟨_, Or.inr rfl, rfl, rfl, rfl, rfl, rfl, rfl⟩

theorem c4_witness :
    (endDraw (startDraw (setMode initState "circle") 2 3) 2 3).undoStack = ["stroke_0"] ∧
    (endDraw (startDraw (setMode initState "circle") 2 3) 2 3).redoStack = [] := by
  have h := c4_shape_click_commits (setMode initState "circle") 2 3 (Or.inr (Or.inr rfl))
  exact ⟨h.1.trans (by decide), h.2.1⟩

/-- C5 counterexample: a stroke begun in pen mode does not keep its
mode when the user selects a different tool mid-stroke.  After press at
(0,0) in pen mode, switching to rectangle mode, and releasing at (5,5),
the release is interpreted in the NEW mode: a rectangle primitive
spanning (0,0)-(5,5) is created and tagged with the in-progress stroke
(under the claim, the pen-mode release would create no primitive at
all). -/
theorem c5_counterexample :
    (run initState [.press 0 0, .setMode "rectangle", .release 5 5]).canvas.items =
      [{ id := 1, kind := "line", x0 := 0, y0 := 0, x1 := 1, y1 := 1,
         color := "#000000", width := 4, tags := ["stroke_0"], visible := true },
       { id := 2, kind := "rectangle", x0 := 0, y0 := 0, x1 := 5, y1 := 5,
         color := "#000000", width := 4, tags := ["stroke_0"], visible := true }] ∧
    (run initState [.press 0 0, .setMode "rectangle", .release 5 5]).undoStack
      = ["stroke_0"] := by
  decide

/-- C5 amended: selecting a drawing mode takes effect immediately, also
for the stroke in progress: `_set_mode` overwrites `draw_mode` and the
remaining pointer-move and pointer-up events of the current stroke are
interpreted in the newly selected mode.  In particular, switching to
rectangle mode mid-stroke makes the pointer-up commit a rectangle
primitive (anchored at the last recorded point) tagged with the current
stroke. -/
theorem c5_mode_change_immediate (s : State) (lx ly x y : Int) (t : String)
    (hx : s.lastX = some lx) (hy : s.lastY = some ly)
    (ht : s.currentStrokeTag = some t) (hte : t ≠ "") :
    (endDraw (setMode s "rectangle") x y).undoStack = s.undoStack ++ [t] ∧
    (endDraw (setMode s "rectangle") x y).redoStack = [] ∧
    ∃ it ∈ (endDraw (setMode s "rectangle") x y).canvas.items,
      it.kind = "rectangle" ∧ it.x0 = lx ∧ it.y0 = ly ∧ it.x1 = x ∧ it.y1 = y ∧
      it.tags = [t] := by
  rcases hp : s.previewItem with _ | pid <;>
    simp [setMode, endDraw, endDrawShape, hx, hy, ht, hp, hte,
      createItem, canvasDeleteItem, pyTruthyStr] <;>
    exact ⟨_, Or.inr rfl, rfl, rfl, rfl, rfl, rfl, rfl⟩

theorem c5_witness :
    (endDraw (setMode (startDraw initState 0 0) "rectangle") 5 5).undoStack
      = ["stroke_0"] ∧
    (endDraw (setMode (startDraw initState 0 0) "rectangle") 5 5).redoStack = [] := by
  have h := c5_mode_change_immediate (startDraw initState 0 0) 0 0 5 5 "stroke_0"
    (by decide) (by decide) (by decide) (by decide)
  exact ⟨h.1.trans (by decide), h.2.1⟩

/-- Pointer-move events of one gesture, folded over `_draw_motion`. -/
def gestureMotions (s : State) (ms : List (Int × Int)) : State :=
  ms.foldl (fun s q => drawMotion s q.1 q.2) s

theorem gestureMotions_fields (ms : List (Int × Int)) : ∀ s : State,
    (gestureMotions s ms).undoStack = s.undoStack ∧
    (gestureMotions s ms).redoStack = s.redoStack ∧
    (gestureMotions s ms).currentStrokeTag = s.currentStrokeTag ∧
    (gestureMotions s ms).currentStrokeHasItems = s.currentStrokeHasItems := by
  induction ms with
  | nil => intro s; exact ⟨rfl, rfl, rfl, rfl⟩
  | cons q ms ih =>
    intro s
    obtain ⟨h1, h2, h3, h4, h5, h6⟩ := drawMotion_fields s q.1 q.2
    obtain ⟨g1, g2, g3, g4⟩ := ih (drawMotion s q.1 q.2)
    exact ⟨g1.trans h1, g2.trans h2, g3.trans h4, g4.trans h5⟩

/-- C10: in pen mode, every pointer-down immediately creates one dot
primitive (a line from the click point to the point one pixel away)
tagged with the new stroke and marks the stroke non-empty, so a
pen-mode press, any pointer motion (including none), then release
always commits the stroke: its tag is appended to the active sequence
and the redo stack is cleared. -/
theorem c10_pen_dot_commits (s : State) (x y : Int) (h : s.drawMode = "pen") :
    ((startDraw s x y).canvas.items =
        s.canvas.items ++
          [{ id := s.canvas.nextId, kind := "line", x0 := x, y0 := y, x1 := x + 1,
             y1 := y + 1, color := drawColor s, width := s.brushSize,
             tags := [strokeTag s.strokeIndex], visible := true }]) ∧
    (startDraw s x y).currentStrokeHasItems = true ∧
    ∀ ms : List (Int × Int), ∀ x2 y2 : Int,
      (endDraw (gestureMotions (startDraw s x y) ms) x2 y2).undoStack =
        s.undoStack ++ [strokeTag s.strokeIndex] ∧
      (endDraw (gestureMotions (startDraw s x y) ms) x2 y2).redoStack = [] := by
  refine ⟨by simp [startDraw, h, createItem, drawColor], by simp [startDraw, h], ?_⟩
  intro ms x2 y2
  obtain ⟨g1, g2, g3, g4⟩ := gestureMotions_fields ms (startDraw s x y)
  obtain ⟨s1, s2, s3, s4⟩ := startDraw_fields s x y
  have hitems : (startDraw s x y).currentStrokeHasItems = true := by simp [startDraw, h]
  have hc : commitsAt (gestureMotions (startDraw s x y) ms) = true := by
    unfold commitsAt
    rw [g4, hitems, g3, s4, pyTruthyStr_strokeTag]
    simp
  obtain ⟨hu, hr⟩ := (endDraw_stacks _ x2 y2).1 hc
  refine ⟨?_, hr⟩
  rw [hu, g1, s1, g3, s4]
  rfl

theorem c10_witness :
    (endDraw (gestureMotions (startDraw initState 0 0) [(1, 2)]) 3 4).undoStack
      = ["stroke_0"] ∧
    (endDraw (gestureMotions (startDraw initState 0 0) [(1, 2)]) 3 4).redoStack = [] := by
  have h := (c10_pen_dot_commits initState 0 0 rfl).2.2 [(1, 2)] 3 4
  exact ⟨h.1.trans (by decide), h.2⟩

/-! ## Hugging Face analysis (`_analyze_with_hf`)

The function is embedded from the point where the HTTP response is in
hand: its status code and, for 2xx responses, the decoded JSON body.  A
list-shaped body is a list of entries with optional `label` and `score`
fields; JSON numbers are modelled as rationals. -/

structure HFEntry where
  label : Option String
  score : Option ℚ
deriving DecidableEq, Repr

/-- `lambda x: x.get("score", 0)`. -/
def scoreKey (e : HFEntry) : ℚ := e.score.getD 0

/-- Python `max(xs, key=key)` on a non-empty list `x :: xs`: keeps the
first maximal element (a later element replaces the current maximum
only when strictly greater). -/
def pyMax (key : HFEntry → ℚ) (x : HFEntry) (xs : List HFEntry) : HFEntry :=
  xs.foldl (fun acc y => if key acc < key y then y else acc) x

/-- Python `round` to an integer: nearest, ties to even. -/
def pyRoundHalfEven (q : ℚ) : ℤ :=
  let f := ⌊q⌋
  let r := q - f
  if r < 1 / 2 then f
  else if 1 / 2 < r then f + 1
  else if f % 2 = 0 then f else f + 1

/-- `round(x, 1)`. -/
def pyRound1 (q : ℚ) : ℚ := (pyRoundHalfEven (q * 10) : ℚ) / 10

inductive HFResult where
  | warming
  | httpError (status : Nat)
  | classified (label : String) (confidence : ℚ)
  | rawFallback
deriving DecidableEq, Repr

/-- `_analyze_with_hf` from the HTTP response onward: 503 yields the
"model is loading" message before `raise_for_status` can run; other
4xx/5xx statuses raise; a non-empty list body yields the
highest-scoring entry's label with `round(score * 100, 1)`; anything
else (including an empty list) falls back to `str(data)`. -/
def analyzeWithHf (status : Nat) (data : Option (List HFEntry)) : HFResult :=
  if status = 503 then .warming
  else if 400 ≤ status ∧ status < 600 then .httpError status
  else
    match data with
    | some (e :: es) =>
      let top := pyMax scoreKey e es
      .classified (top.label.getD "Unknown") (pyRound1 (scoreKey top * 100))
    | _ => .rawFallback

theorem pyMax_spec (key : HFEntry → ℚ) (xs : List HFEntry) : ∀ x : HFEntry,
    pyMax key x xs ∈ x :: xs ∧
    key x ≤ key (pyMax key x xs) ∧
    ∀ y ∈ xs, key y ≤ key (pyMax key x xs) := by
  induction xs with
  | nil => intro x; exact ⟨List.mem_singleton_self x, le_refl _, by simp⟩
  | cons z zs ih =>
    intro x
    have hstep : pyMax key x (z :: zs) = pyMax key (if key x < key z then z else x) zs := rfl
    obtain ⟨hmem, hle, hall⟩ := ih (if key x < key z then z else x)
    rw [hstep]
    refine ⟨?_, ?_, ?_⟩
    · rcases List.mem_cons.mp hmem with h | h
      · rw [h]
        by_cases hxz : key x < key z
        · simp [hxz]
        · simp [hxz]
      · exact List.mem_cons_of_mem _ (List.mem_cons_of_mem _ h)
    · refine le_trans ?_ hle
      by_cases hxz : key x < key z
      · simp [hxz]; exact le_of_lt hxz
      · simp [hxz]
    · intro y hy
      rcases List.mem_cons.mp hy with h | h
      · subst h
        refine le_trans ?_ hle
        by_cases hxz : key x < key y
        · simp [hxz]
        · simp [hxz]; exact le_of_not_lt hxz
      · exact hall y h

/-- C6: on a 200 response with a non-empty list body, the reported
entry is one of the entries and its `score` (defaulting to 0) is
maximal among all entries; the reported confidence is that score times
100 rounded to one decimal place; on the §8 scenario (cat 0.42 / dog
0.91) the result is label "dog" with confidence 91.0. -/
theorem c6_hf_top_score (e : HFEntry) (es : List HFEntry) :
    (∃ top ∈ e :: es,
       (∀ y ∈ e :: es, scoreKey y ≤ scoreKey top) ∧
       analyzeWithHf 200 (some (e :: es)) =
         .classified (top.label.getD "Unknown") (pyRound1 (scoreKey top * 100))) ∧
    analyzeWithHf 200 (some
        [{ label := some "cat", score := some (42 / 100) },
         { label := some "dog", score := some (91 / 100) }]) =
      .classified "dog" 91 := by
  constructor
  · obtain ⟨hmem, hle, hall⟩ := pyMax_spec scoreKey es e
    refine ⟨pyMax scoreKey e es, hmem, ?_, by simp [analyzeWithHf]⟩
    intro y hy
    rcases List.mem_cons.mp hy with h | h
    · subst h; exact hle
    · exact hall y h
  · have hlt : scoreKey { label := some "cat", score := some (42 / 100) } <
        scoreKey { label := some "dog", score := some (91 / 100) } := by
      simp only [scoreKey, Option.getD_some]
      norm_num
    have hmul : scoreKey { label := some "dog", score := some (91 / 100) } * 100
        = (91 : ℚ) := by
      simp only [scoreKey, Option.getD_some]
      norm_num
    have hround : pyRound1 (91 : ℚ) = 91 := by
      have h1 : ((91 : ℚ) * 10) = ((910 : ℤ) : ℚ) := by norm_num
      simp only [pyRound1, pyRoundHalfEven, h1, Int.floor_intCast]
      norm_num
    simp [analyzeWithHf, pyMax, hlt, hmul, hround]

theorem c6_witness :
    analyzeWithHf 200 (some
        [{ label := some "cat", score := some (42 / 100) },
         { label := some "dog", score := some (91 / 100) }]) =
      HFResult.classified "dog" 91 :=
  (c6_hf_top_score { label := some "cat", score := some (42 / 100) }
      [{ label := some "dog", score := some (91 / 100) }]).2

/-- C7: a 503 response from the Hugging Face endpoint always yields the
"model is loading, try again" message, whatever the body; in
particular it is not surfaced as an HTTP error (the 503 check runs
before `raise_for_status`). -/
theorem c7_hf_503_warming : ∀ data : Option (List HFEntry),
    analyzeWithHf 503 data = HFResult.warming ∧
    analyzeWithHf 503 data ≠ HFResult.httpError 503 := by
  intro data
  refine ⟨by simp [analyzeWithHf], ?_⟩
  simp [analyzeWithHf]

theorem c7_witness : analyzeWithHf 503 none = HFResult.warming :=
  (c7_hf_503_warming none).1

/-! ## Backend selection (`analyze_drawing`) -/

inductive Route where
  | gemini
  | hf
  | notConfigured
deriving DecidableEq, Repr

/-- The dispatch decision of `analyze_drawing` after a successful
canvas capture: the Gemini worker if `GEMINI_API_KEY` is truthy AND the
`google.generativeai` import succeeded (`_GEMINI_AVAILABLE`), else the
Hugging Face worker if `HF_API_TOKEN` is truthy, else the informational
"AI not configured" dialog — in that last case no worker thread is
started and no network request is made. -/
def analyzeRoute (geminiKey hfToken : Option String) (geminiAvailable : Bool) : Route :=
  if pyTruthyStr geminiKey && geminiAvailable then .gemini
  else if pyTruthyStr hfToken then .hf
  else .notConfigured

/-- C9 counterexample: backend selection is NOT determined solely by
credential presence.  With the Gemini credential configured (and no
Hugging Face token) but the Gemini library unavailable, the code shows
the "not configured" message instead of choosing Backend A. -/
theorem c9_counterexample :
    analyzeRoute (some "key") none false = Route.notConfigured ∧
    Route.notConfigured ≠ Route.gemini := by
  decide

/-- C9 amended: backend selection is determined by credential presence
AND Gemini-library availability: Backend A (Gemini) is chosen iff its
credential is truthy and the library imported; otherwise Backend B
(Hugging Face) is chosen iff its token is truthy; otherwise the
operation short-circuits to the informational "not configured" message
and dispatches no analysis (hence no network call). -/
theorem c9_route_by_credentials (gk tok : Option String) (avail : Bool) :
    (analyzeRoute gk tok avail = Route.gemini ↔
       (pyTruthyStr gk && avail) = true) ∧
    (analyzeRoute gk tok avail = Route.hf ↔
       ¬((pyTruthyStr gk && avail) = true) ∧ pyTruthyStr tok = true) ∧
    (analyzeRoute gk tok avail = Route.notConfigured ↔
       ¬((pyTruthyStr gk && avail) = true) ∧ ¬(pyTruthyStr tok = true)) := by
  unfold analyzeRoute
  by_cases h1 : (pyTruthyStr gk && avail) = true <;>
    by_cases h2 : pyTruthyStr tok = true <;>
    simp [h1, h2]

theorem c9_witness :
    analyzeRoute (some "gk") (some "tok") true = Route.gemini :=
  (c9_route_by_credentials (some "gk") (some "tok") true).1.mpr (by decide)



/-! ## Gemini analysis (`_analyze_with_gemini`): response-text parsing

`json.loads` is modelled by a fuelled recursive-descent JSON parser
over the character list of the response text; `re.search` of the
pattern "brace, anything, brace" is modelled by its greedy semantics:
the match runs from the first opening brace that has a later closing
brace up to the last closing brace of the string. -/

inductive JValue where
  | jnull
  | jbool (b : Bool)
  | jnum (q : ℚ)
  | jstr (s : String)
  | jarr (items : List JValue)
  | jobj (fields : List (String × JValue))

def lbrace : Char := Char.ofNat 123
def rbrace : Char := Char.ofNat 125

def isWsChar (c : Char) : Bool := c == ' ' || c == '\t' || c == '\n' || c == '\r'

def skipWs : List Char → List Char
  | [] => []
  | c :: cs => if isWsChar c then skipWs cs else c :: cs

def hexVal (c : Char) : Option Nat :=
  if '0' ≤ c ∧ c ≤ '9' then some (c.toNat - 48)
  else if 'a' ≤ c ∧ c ≤ 'f' then some (c.toNat - 87)
  else if 'A' ≤ c ∧ c ≤ 'F' then some (c.toNat - 55)
  else none

def parseJStringAux (acc : List Char) : List Char → Option (String × List Char)
  | [] => none
  | c :: cs =>
    if c = '"' then some (String.mk acc.reverse, cs)
    else if c = '\\' then
      match cs with
      | [] => none
      | e :: cs2 =>
        if e = '"' then parseJStringAux ('"' :: acc) cs2
        else if e = '\\' then parseJStringAux ('\\' :: acc) cs2
        else if e = '/' then parseJStringAux ('/' :: acc) cs2
        else if e = 'n' then parseJStringAux ('\n' :: acc) cs2
        else if e = 't' then parseJStringAux ('\t' :: acc) cs2
        else if e = 'r' then parseJStringAux ('\r' :: acc) cs2
        else if e = 'b' then parseJStringAux (Char.ofNat 8 :: acc) cs2
        else if e = 'f' then parseJStringAux (Char.ofNat 12 :: acc) cs2
        else if e = 'u' then
          match cs2 with
          | h1 :: h2 :: h3 :: h4 :: cs3 =>
            match hexVal h1, hexVal h2, hexVal h3, hexVal h4 with
            | some a, some b, some c2, some d =>
              parseJStringAux (Char.ofNat (((a * 16 + b) * 16 + c2) * 16 + d) :: acc) cs3
            | _, _, _, _ => none
          | _ => none
        else none
    else parseJStringAux (c :: acc) cs

def takeDigits (cs : List Char) : List Char × List Char :=
  (cs.takeWhile (fun c => c.isDigit), cs.dropWhile (fun c => c.isDigit))

/-- JSON number: optional minus, integer digits, optional fraction,
optional exponent; the value is exact as a rational. -/
def parseNumber (cs : List Char) : Option (ℚ × List Char) :=
  let sgn := match cs with
    | c :: rest => if c = '-' then (true, rest) else (false, cs)
    | [] => (false, cs)
  let ip := takeDigits sgn.2
  if ip.1.isEmpty then none
  else
    let intVal : ℚ := (chompDigits 0 ip.1 : ℚ)
    let frac : Option (Option ℚ × List Char) := match ip.2 with
      | c :: rest =>
        if c = '.' then
          let fp := takeDigits rest
          if fp.1.isEmpty then none
          else some (some ((chompDigits 0 fp.1 : ℚ) / (10 ^ fp.1.length)), fp.2)
        else some (none, ip.2)
      | [] => some (none, ip.2)
    match frac with
    | none => none
    | some (fv, cs2) =>
      let mag : ℚ := match fv with
        | none => intVal
        | some f => intVal + f
      let base : ℚ := if sgn.1 then -mag else mag
      match cs2 with
      | c :: rest =>
        if c = 'e' ∨ c = 'E' then
          let esgn := match rest with
            | d :: r2 =>
              if d = '-' then (true, r2)
              else if d = '+' then (false, r2)
              else (false, rest)
            | [] => (false, rest)
          let ds := takeDigits esgn.2
          if ds.1.isEmpty then none
          else
            let ev := chompDigits 0 ds.1
            some ((if esgn.1 then base / 10 ^ ev else base * 10 ^ ev), ds.2)
        else some (base, cs2)
      | [] => some (base, cs2)

mutual

def parseValue : Nat → List Char → Option (JValue × List Char)
  | 0, _ => none
  | fuel + 1, cs =>
    match skipWs cs with
    | [] => none
    | c :: rest =>
      if c = lbrace then parseObjBody fuel rest
      else if c = '[' then parseArrBody fuel rest
      else if c = '"' then
        match parseJStringAux [] rest with
        | some (s, r) => some (.jstr s, r)
        | none => none
      else if c = 't' then
        match rest with
        | 'r' :: 'u' :: 'e' :: r => some (.jbool true, r)
        | _ => none
      else if c = 'f' then
        match rest with
        | 'a' :: 'l' :: 's' :: 'e' :: r => some (.jbool false, r)
        | _ => none
      else if c = 'n' then
        match rest with
        | 'u' :: 'l' :: 'l' :: r => some (.jnull, r)
        | _ => none
      else
        match parseNumber (c :: rest) with
        | some (q, r) => some (.jnum q, r)
        | none => none

def parseObjBody : Nat → List Char → Option (JValue × List Char)
  | 0, _ => none
  | fuel + 1, cs =>
    match skipWs cs with
    | c :: rest =>
      if c = rbrace then some (.jobj [], rest)
      else parseMembers fuel (c :: rest) []
    | [] => none

def parseMembers : Nat → List Char → List (String × JValue) →
    Option (JValue × List Char)
  | 0, _, _ => none
  | fuel + 1, cs, acc =>
    match skipWs cs with
    | c :: rest =>
      if c = '"' then
        match parseJStringAux [] rest with
        | some (k, r1) =>
          match skipWs r1 with
          | ':' :: r2 =>
            match parseValue fuel r2 with
            | some (v, r3) =>
              match skipWs r3 with
              | d :: r4 =>
                if d = ',' then parseMembers fuel r4 (acc ++ [(k, v)])
                else if d = rbrace then some (.jobj (acc ++ [(k, v)]), r4)
                else none
              | [] => none
            | none => none
          | _ => none
        | none => none
      else none
    | [] => none

def parseArrBody : Nat → List Char → Option (JValue × List Char)
  | 0, _ => none
  | fuel + 1, cs =>
    match skipWs cs with
    | c :: rest =>
      if c = ']' then some (.jarr [], rest)
      else parseElems fuel (c :: rest) []
    | [] => none

def parseElems : Nat → List Char → List JValue → Option (JValue × List Char)
  | 0, _, _ => none
  | fuel + 1, cs, acc =>
    match parseValue fuel cs with
    | some (v, r1) =>
      match skipWs r1 with
      | d :: r2 =>
        if d = ',' then parseElems fuel r2 (acc ++ [v])
        else if d = ']' then some (.jarr (acc ++ [v]), r2)
        else none
      | [] => none
    | none => none

end

/-- `json.loads`: parse one value, allowing surrounding whitespace and
requiring full consumption of the input. -/
def jsonLoads (s : String) : Option JValue :=
  match parseValue (2 * s.length + 2) s.data with
  | some (v, rest) => if (skipWs rest).isEmpty then some v else none
  | none => none



/-- Greedy semantics of the brace-block regex search in
`_analyze_with_gemini`: the match spans from the first opening brace
that is followed by a later closing brace to the last closing brace of
the string (`[\s\S]*` is greedy and may span newlines). -/
def regexBraceBlock (s : String) : Option String :=
  let cs := s.data
  match cs.reverse.findIdx? (fun c => c == rbrace) with
  | none => none
  | some jr =>
    let j := cs.length - 1 - jr
    match (cs.take j).findIdx? (fun c => c == lbrace) with
    | none => none
    | some i => some (String.mk ((cs.drop i).take (j - i + 1)))

/-- The parse cascade of `_analyze_with_gemini`: `result` is `None` for
empty text; otherwise `json.loads(content)`, and only when that raises
a decode error, `json.loads` of the regex-extracted brace block (a
second failure leaves `result = None`). -/
def geminiExtractResult (content : String) : Option JValue :=
  if content = "" then none
  else
    match jsonLoads content with
    | some v => some v
    | none =>
      match regexBraceBlock content with
      | some block => jsonLoads block
      | none => none

/-- `result.get(key, default)` on a dict built by `json.loads`:
duplicate keys in the JSON text resolve to the last occurrence. -/
def dictGet (fields : List (String × JValue)) (k : String) (d : JValue) : JValue :=
  match (fields.filter (fun p => p.1 == k)).getLast? with
  | some p => p.2
  | none => d

/-- The message produced by `_analyze_with_gemini` from the response
text, kept structured: `structured` carries the three values
interpolated into the label/confidence/critique message when `result`
is a dict; otherwise the raw text is returned (`content or "No
response"`). -/
inductive GeminiReply where
  | structured (label conf critique : JValue)
  | raw (content : String)
  | noResponse

def analyzeWithGeminiContent (content : String) : GeminiReply :=
  match geminiExtractResult content with
  | some (.jobj fields) =>
    .structured (dictGet fields "label" (.jstr "Unknown"))
      (dictGet fields "confidence" (.jstr "?"))
      (dictGet fields "critique" (.jstr ""))
  | _ => if content = "" then .noResponse else .raw content

/-- Backend A scenario from §8 of the specification: leading prose
followed by a JSON object. -/
def gScenario : String :=
  "I think this is a house! \x7b\"label\":\"house\",\"confidence\":80,\"critique\":\"nice roofline\"\x7d"

/-- C8: the Gemini response text is parsed as JSON: when the whole
text parses to a JSON object, the three structured fields are
extracted (with the source's defaults); when the direct parse fails,
the greedy brace block of the text is extracted and parsed — on the §8
scenario (leading prose followed by an object) this fallback path
yields label "house", confidence 80, critique "nice roofline"; and
when no JSON object is obtained at all, the non-empty raw response
text is returned unchanged instead of an error. -/
theorem c8_gemini_parse_fallback :
    (∀ content fields, content ≠ "" → jsonLoads content = some (.jobj fields) →
       analyzeWithGeminiContent content =
         .structured (dictGet fields "label" (.jstr "Unknown"))
           (dictGet fields "confidence" (.jstr "?"))
           (dictGet fields "critique" (.jstr ""))) ∧
    (∀ content, content ≠ "" →
       (∀ fields, geminiExtractResult content ≠ some (.jobj fields)) →
       analyzeWithGeminiContent content = .raw content) ∧
    jsonLoads gScenario = none ∧
    analyzeWithGeminiContent gScenario =
      .structured (.jstr "house") (.jnum 80) (.jstr "nice roofline") := by
  refine ⟨?_, ?_, by rfl, by rfl⟩
  · intro content fields hne hdirect
    have hext : geminiExtractResult content = some (.jobj fields) := by
      unfold geminiExtractResult
      rw [if_neg hne, hdirect]
    unfold analyzeWithGeminiContent
    rw [hext]
  · intro content hne hnobj
    unfold analyzeWithGeminiContent
    rcases hext : geminiExtractResult content with _ | v
    · simp [hne]
    · cases v with
      | jobj fields => exact absurd hext (hnobj fields)
      | jnull => simp [hne]
      | jbool b => simp [hne]
      | jnum q => simp [hne]
      | jstr s => simp [hne]
      | jarr l => simp [hne]

theorem c8_witness : analyzeWithGeminiContent "hello" = GeminiReply.raw "hello" := by
  have hnone : geminiExtractResult "hello" = none := by rfl
  exact c8_gemini_parse_fallback.2.1 "hello" (by decide)
    (fun fields h => by rw [hnone] at h; exact Option.noConfusion h)

end Whiteboard
